import Mathlib

/-!
Verification of the bloom-filter core of the `language-assistant` repository:
the membership filter (`internal/models/user_config.go`), its repository
operations (`internal/repository/bloom_filter_repository.go`) and the word
supply loop plus push handler
(`services/public/func/language-vocabulary/handler.go`).

Go code is shallowly embedded: bytes and machine words are `Nat` with
explicit `% 2^w` where overflow matters, byte slices are `List Nat`,
fallible calls return `Except Unit`, and the DynamoDB store and the external
collaborators (word generator, LINE push channel) are explicit parameters
describing their outcomes.
-/

set_option maxRecDepth 1000000

namespace LangAssist

/-! ### 32/64-bit helpers -/

/-- Truncate to an unsigned 32-bit value (Go `uint32` arithmetic). -/
def w32 (n : Nat) : Nat := n % 4294967296

/-- Right rotation of a 32-bit word by `n` places. -/
def rotr32 (n x : Nat) : Nat := w32 ((x >>> n) ||| (x <<< (32 - n)))

/-- Big-endian decoding of a byte list into a natural number
(Go `binary.BigEndian.Uint64` when given 8 bytes). -/
def beNat (bs : List Nat) : Nat := bs.foldl (fun acc b => acc * 256 + b) 0

/-- Big-endian encoding of a 32-bit word as 4 bytes. -/
def be32 (w : Nat) : List Nat :=
  [(w >>> 24) &&& 255, (w >>> 16) &&& 255, (w >>> 8) &&& 255, w &&& 255]

/-- Big-endian encoding of a 64-bit value as 8 bytes. -/
def be64 (w : Nat) : List Nat :=
  [(w >>> 56) &&& 255, (w >>> 48) &&& 255, (w >>> 40) &&& 255,
   (w >>> 32) &&& 255, (w >>> 24) &&& 255, (w >>> 16) &&& 255,
   (w >>> 8) &&& 255, w &&& 255]

/-- UTF-8 encoding of one character, as Go produces for `[]byte(word)`. -/
def utf8Char (c : Char) : List Nat :=
  let n := c.toNat
  if n < 128 then [n]
  else if n < 2048 then [192 ||| (n >>> 6), 128 ||| (n &&& 63)]
  else if n < 65536 then
    [224 ||| (n >>> 12), 128 ||| ((n >>> 6) &&& 63), 128 ||| (n &&& 63)]
  else
    [240 ||| (n >>> 18), 128 ||| ((n >>> 12) &&& 63),
     128 ||| ((n >>> 6) &&& 63), 128 ||| (n &&& 63)]

/-- The UTF-8 bytes of a string (Go `[]byte(word)`). -/
def strBytes (s : String) : List Nat := (s.data.map utf8Char).flatten

/-! ### SHA-256 (the `crypto/sha256` library call made by `getHashes`),
embedded as the FIPS 180-4 algorithm over byte lists. -/

/-- SHA-256 round constants. -/
def sha256K : List Nat :=
  [1116352408, 1899447441, 3049323471, 3921009573,
   961987163, 1508970993, 2453635748, 2870763221,
   3624381080, 310598401, 607225278, 1426881987,
   1925078388, 2162078206, 2614888103, 3248222580,
   3835390401, 4022224774, 264347078, 604807628,
   770255983, 1249150122, 1555081692, 1996064986,
   2554220882, 2821834349, 2952996808, 3210313671,
   3336571891, 3584528711, 113926993, 338241895,
   666307205, 773529912, 1294757372, 1396182291,
   1695183700, 1986661051, 2177026350, 2456956037,
   2730485921, 2820302411, 3259730800, 3345764771,
   3516065817, 3600352804, 4094571909, 275423344,
   430227734, 506948616, 659060556, 883997877,
   958139571, 1322822218, 1537002063, 1747873779,
   1955562222, 2024104815, 2227730452, 2361852424,
   2428436474, 2756734187, 3204031479, 3329325298]

/-- SHA-256 initial hash state. -/
def sha256H0 : List Nat :=
  [1779033703, 3144134277, 1013904242, 2773480762,
   1359893119, 2600822924, 528734635, 1541459225]

/-- `Ch` function (32-bit complement written as xor with the all-ones mask). -/
def sha256Ch (x y z : Nat) : Nat := (x &&& y) ^^^ ((x ^^^ 4294967295) &&& z)

/-- `Maj` function. -/
def sha256Maj (x y z : Nat) : Nat := (x &&& y) ^^^ (x &&& z) ^^^ (y &&& z)

/-- Big sigma-0. -/
def sigmaBig0 (x : Nat) : Nat := rotr32 2 x ^^^ rotr32 13 x ^^^ rotr32 22 x

/-- Big sigma-1. -/
def sigmaBig1 (x : Nat) : Nat := rotr32 6 x ^^^ rotr32 11 x ^^^ rotr32 25 x

/-- Small sigma-0. -/
def sigmaSmall0 (x : Nat) : Nat := rotr32 7 x ^^^ rotr32 18 x ^^^ (x >>> 3)

/-- Small sigma-1. -/
def sigmaSmall1 (x : Nat) : Nat := rotr32 17 x ^^^ rotr32 19 x ^^^ (x >>> 10)

/-- Group a byte list into big-endian 32-bit words. -/
def toWordsBE : List Nat → List Nat
  | b0 :: b1 :: b2 :: b3 :: rest => beNat [b0, b1, b2, b3] :: toWordsBE rest
  | _ => []

/-- Extend the 16 block words to the 64-entry message schedule. -/
def sha256Schedule (ws : List Nat) : List Nat :=
  (List.range 48).foldl
    (fun ws i =>
      let t := i + 16
      ws ++ [w32 (sigmaSmall1 (ws.getD (t - 2) 0) + ws.getD (t - 7) 0 +
                  sigmaSmall0 (ws.getD (t - 15) 0) + ws.getD (t - 16) 0)]) ws

/-- One compression round on the state `[a,b,c,d,e,f,g,h]`. -/
def sha256Round (kc wc : Nat) (s : List Nat) : List Nat :=
  match s with
  | [a, b, c, d, e, f, g, h] =>
    let t1 := w32 (h + sigmaBig1 e + sha256Ch e f g + kc + wc)
    let t2 := w32 (sigmaBig0 a + sha256Maj a b c)
    [w32 (t1 + t2), a, b, c, w32 (d + t1), e, f, g]
  | other => other

/-- Process one 64-byte block, updating the 8-word hash state. -/
def sha256Block (h : List Nat) (block : List Nat) : List Nat :=
  let w := sha256Schedule (toWordsBE block)
  let s := (List.range 64).foldl
    (fun s t => sha256Round (sha256K.getD t 0) (w.getD t 0) s) h
  (h.zip s).map (fun p => w32 (p.1 + p.2))

/-- SHA-256 padding: append `0x80`, zeros to 56 mod 64, then the 64-bit
big-endian bit length. -/
def sha256Pad (msg : List Nat) : List Nat :=
  let l := msg.length
  let zeros := (120 - (l + 1) % 64) % 64
  msg ++ [128] ++ List.replicate zeros 0 ++ be64 (8 * l)

/-- Take `n` 64-byte chunks off the front of a byte list. -/
def chunksN : Nat → List Nat → List (List Nat)
  | 0, _ => []
  | n + 1, l => l.take 64 :: chunksN n (l.drop 64)

/-- Split a byte list into its 64-byte chunks (the padded message length
is always a positive multiple of 64). -/
def chunks64 (l : List Nat) : List (List Nat) := chunksN (l.length / 64) l

/-- SHA-256 digest (32 bytes) of a byte list. -/
def sha256 (msg : List Nat) : List Nat :=
  let final := (chunks64 (sha256Pad msg)).foldl sha256Block sha256H0
  (final.map be32).flatten

/-! ### The filter data model (`internal/models/user_config.go`)

Go `int` fields only ever hold the non-negative values `8192` and `5` in
this program, so `Size` and `HashCount` are embedded as `Nat`; the byte
slice `BitArray` is a `List Nat` of values `< 256`. -/

/-- `models.BloomFilter`. -/
structure BloomFilter where
  UserID : String
  BitArray : List Nat
  Size : Nat
  HashCount : Nat
  UpdatedAt : String
deriving Repr, DecidableEq

/-- `models.NewBloomFilter`: the `expectedElements` argument (a Go `int`,
embedded as `Int`) is unused; sizes are the hardcoded `8192` and `5`, and
`make([]byte, (size+7)/8)` yields a zeroed byte slice. The `UpdatedAt`
field keeps Go's zero value `""`. -/
def NewBloomFilter (userID : String) (expectedElements : Int) : BloomFilter :=
  let size := 8192
  let hashCount := 5
  { UserID := userID
    BitArray := List.replicate ((size + 7) / 8) 0
    Size := size
    HashCount := hashCount
    UpdatedAt := "" }

/-- `(*BloomFilter).getHashes`: SHA-256 of the word's bytes,
`hash1`/`hash2` big-endian from bytes `[0,8)` and `[8,16)` of the digest,
then `hashes[i] = hash1 + uint64(i)*hash2` in wrapping `uint64`
arithmetic. -/
def BloomFilter.getHashes (bf : BloomFilter) (word : String) : List Nat :=
  let digest := sha256 (strBytes word)
  let hash1 := beNat (digest.take 8)
  let hash2 := beNat ((digest.drop 8).take 8)
  (List.range bf.HashCount).map (fun i => (hash1 + i * hash2) % 2 ^ 64)

/-- One `|=` step of `Add`: set bit `index % 8` of byte `index / 8`,
guarded by `if byteIndex < uint64(len(bf.BitArray))` exactly as in the
source (out-of-range probes are silently skipped). The debug logging is
omitted. -/
def setBitStep (ba : List Nat) (index : Nat) : List Nat :=
  let byteIndex := index / 8
  let bitIndex := index % 8
  if byteIndex < ba.length then
    ba.set byteIndex (ba.getD byteIndex 0 ||| (1 <<< bitIndex))
  else ba

/-- `(*BloomFilter).Add`: for each hash, `index := hash % uint64(bf.Size)`
and set that bit. (`Size = 0` would panic in Go with a division by zero;
theorems about `Add` therefore assume `0 < Size`.) -/
def BloomFilter.Add (bf : BloomFilter) (word : String) : BloomFilter :=
  { bf with
    BitArray := (bf.getHashes word).foldl
      (fun ba hash => setBitStep ba (hash % bf.Size)) bf.BitArray }

/-- The read `bf.BitArray[byteIndex] & (1 << bitIndex)` made by
`Contains` at linear bit position `index`. -/
def bitTest (ba : List Nat) (index : Nat) : Bool :=
  ba.getD (index / 8) 0 &&& (1 <<< (index % 8)) != 0

/-- `(*BloomFilter).Contains`: false as soon as one probed bit is clear,
true when all `HashCount` probed bits are set. Go indexes `BitArray`
unguarded here (panicking when out of range); the embedding reads with
default `0`, which agrees with Go whenever
`len(BitArray) = (Size+7)/8` and `0 < Size` keep every probe in range. -/
def BloomFilter.Contains (bf : BloomFilter) (word : String) : Bool :=
  (bf.getHashes word).all (fun hash => bitTest bf.BitArray (hash % bf.Size))

/-- Well-formedness: the data-model invariant `len(bits) = ceil(m/8)`
with a positive bit count, under which the Go indexing never panics. -/
def BloomFilter.WF (bf : BloomFilter) : Prop :=
  bf.BitArray.length = (bf.Size + 7) / 8 ∧ 0 < bf.Size

instance (bf : BloomFilter) : Decidable bf.WF := by
  unfold BloomFilter.WF; infer_instance

/-! ### Candidate words and the repository layer
(`internal/utils/dynamodb.go`, `internal/repository/bloom_filter_repository.go`) -/

/-- `utils.Example`. -/
structure WordExample where
  En : String
  Zh : String
deriving Repr, DecidableEq

/-- `utils.Word`: the generated vocabulary item; only `Word` (the lexical
key) participates in filter membership. -/
structure Word where
  Word : String
  PartOfSpeech : String
  Meaning : String
  Example : WordExample
  Synonyms : List String
  Antonyms : List String
  Difficulty : String
  Category : String
deriving Repr, DecidableEq

/-- A word with empty metadata, for concrete scenarios. -/
def mkWord (w : String) : Word :=
  { Word := w, PartOfSpeech := "", Meaning := "", Example := ⟨"", ""⟩
    Synonyms := [], Antonyms := [], Difficulty := "", Category := "" }

/-- Outcome of the DynamoDB read made by `GetBloomFilter`. -/
inductive StoreRead where
  /-- `client.GetItem` returned an error. -/
  | unavailable
  /-- `result.Item == nil`: no persisted filter. -/
  | absent
  /-- The item exists but `attributevalue.UnmarshalMap` fails on it. -/
  | unreadable
  /-- The item exists and unmarshals to `f` (no further validation). -/
  | item (f : BloomFilter)
deriving Repr, DecidableEq

/-- `(*BloomFilterRepository).GetBloomFilter`: errors from the client or
the unmarshaller propagate; an absent item yields
`NewBloomFilter(userID, 10000)`; an unmarshalled filter is returned
as-is — the function performs no validation of the stored byte length. -/
def GetBloomFilter (read : StoreRead) (userID : String) : Except Unit BloomFilter :=
  match read with
  | .unavailable => .error ()
  | .absent => .ok (NewBloomFilter userID 10000)
  | .unreadable => .error ()
  | .item f => .ok f

/-- The membership test threaded through state, as
`(*BloomFilter).Contains` takes a pointer receiver but performs no
assignment: the returned filter is the receiver unchanged. -/
def BloomFilter.ContainsS (bf : BloomFilter) (word : String) : Bool × BloomFilter :=
  (bf.Contains word, bf)

/-- The loop body of `FilterWords` over an already-loaded filter: keep the
words whose lexical key tests non-member, in input order, threading the
filter state through each `Contains` call. -/
def filterWordsGo (filter : BloomFilter) : List Word → List Word × BloomFilter
  | [] => ([], filter)
  | w :: ws =>
    let c := filter.ContainsS w.Word
    let rest := filterWordsGo c.2 ws
    if c.1 then rest else (w :: rest.1, rest.2)

/-- `(*BloomFilterRepository).FilterWords`: load the filter for the user
and course via `GetBloomFilter`, then keep the non-member words. -/
def FilterWords (read : StoreRead) (userID : String) (words : List Word) :
    Except Unit (List Word) :=
  match GetBloomFilter read userID with
  | .error e => .error e
  | .ok filter => .ok (filterWordsGo filter words).1

/-! ### The word supply loop
(`generateWordsWithBloomFilter` in
`services/public/func/language-vocabulary/handler.go`)

The generator is a parameter `gen : Nat → Except Unit (List Word)` giving
the outcome of the OpenAI call on each attempt (attempts are numbered from
1 as in the source). The loop performs no store write, so every
`FilterWords` call inside one invocation sees the same `StoreRead`.
`wordCount` is a Go `int`, embedded as `Int`. -/

/-- The inner accumulation loop: append each new word while
`len(finalWords) < wordCount`, `break` otherwise. -/
def appendCapped (wordCount : Int) (finalWords : List Word) :
    List Word → List Word
  | [] => finalWords
  | w :: ws =>
    if (finalWords.length : Int) < wordCount then
      appendCapped wordCount (finalWords ++ [w]) ws
    else finalWords

/-- The code after the loop: empty accumulation is the
`failed to generate any new words after %d attempts` error; a list longer
than `wordCount` is truncated by `finalWords[:wordCount]`; otherwise the
list is returned as-is. -/
def finishSupply (wordCount : Int) (finalWords : List Word) :
    Except Unit (List Word) :=
  if finalWords.length = 0 then .error ()
  else if (finalWords.length : Int) > wordCount then
    .ok (finalWords.take wordCount.toNat)
  else .ok finalWords

instance {ε α : Type} [DecidableEq ε] [DecidableEq α] :
    DecidableEq (Except ε α) := fun x y =>
  match x, y with
  | .error a, .error b =>
    if h : a = b then .isTrue (by rw [h])
    else .isFalse (fun hh => h (Except.error.inj hh))
  | .ok a, .ok b =>
    if h : a = b then .isTrue (by rw [h])
    else .isFalse (fun hh => h (Except.ok.inj hh))
  | .error _, .ok _ => .isFalse (fun hh => Except.noConfusion hh)
  | .ok _, .error _ => .isFalse (fun hh => Except.noConfusion hh)

/-- What one supply invocation produced: its result, the trace of
generator calls actually made (attempt number and requested batch size),
and the accumulated `finalWords` at loop exit. -/
structure SupplyOutcome where
  result : Except Unit (List Word)
  calls : List (Nat × Int)
  accumulated : List Word
deriving Repr, DecidableEq

/-- The `for attempt := 1; attempt <= maxAttempts && len(finalWords) <
wordCount; attempt++` loop with `maxAttempts = 5`: call the generator
(fatal on error), filter via the stored bloom filter (fatal on store
error), append capped, break early once `wordCount` is reached, and
escalate `generateCount` to `wordCount * 5` for later attempts.
The bounded counter `attempt <= 5` is embedded structurally as `left`,
the number of attempts still allowed (`left = 6 - attempt`, positive
exactly when `attempt ≤ 5`), which also witnesses the loop's
termination. -/
def supplyGo (read : StoreRead) (gen : Nat → Except Unit (List Word))
    (wordCount : Int) (userID : String) :
    (attempt : Nat) → (generateCount : Int) → (finalWords : List Word) →
    (left : Nat) → SupplyOutcome
  | _, _, finalWords, 0 => ⟨finishSupply wordCount finalWords, [], finalWords⟩
  | attempt, generateCount, finalWords, left + 1 =>
    if (finalWords.length : Int) < wordCount then
      match gen attempt with
      | .error _ => ⟨.error (), [(attempt, generateCount)], finalWords⟩
      | .ok words =>
        match FilterWords read userID words with
        | .error _ => ⟨.error (), [(attempt, generateCount)], finalWords⟩
        | .ok newWords =>
          let finalWords' := appendCapped wordCount finalWords newWords
          let rest := supplyGo read gen wordCount userID (attempt + 1)
            (wordCount * 5) finalWords' left
          ⟨rest.result, (attempt, generateCount) :: rest.calls, rest.accumulated⟩
    else ⟨finishSupply wordCount finalWords, [], finalWords⟩

/-- `(*Handler).generateWordsWithBloomFilter`: initial batch size
`wordCount * 3`, attempt counter starting at 1 with all 5 attempts
allowed, empty accumulator. -/
def generateWordsWithBloomFilter (read : StoreRead)
    (gen : Nat → Except Unit (List Word)) (wordCount : Int)
    (userID : String) : SupplyOutcome :=
  supplyGo read gen wordCount userID 1 (wordCount * 3) [] 5

/-! ### The push handler (`HandleWordPush` in
`services/public/func/language-vocabulary/handler.go`) -/

/-- `models.UserConfig`. -/
structure UserConfig where
  UserID : String
  Course : String
  Level : Int
  DailyWords : Int
  PushTime : String
  Timezone : String
  UpdatedAt : String
deriving Repr, DecidableEq

/-- Outcomes of the handler's collaborators for one invocation. -/
structure PushEnv where
  /-- Result of `userConfigRepo.GetUserConfig` (`ok none` = not found). -/
  userConfig : Except Unit (Option UserConfig)
  /-- State of the bloom-filter store, seen by every
  `GetBloomFilter` call of the invocation. -/
  read : StoreRead
  /-- Outcome of the OpenAI generator on each attempt. -/
  gen : Nat → Except Unit (List Word)
  /-- Whether `linebotClient.PushMessage` succeeds. -/
  pushOk : Bool
  /-- Whether `SaveBloomFilter`'s `PutItem` succeeds. -/
  saveOk : Bool

/-- `(*Handler).sendWordsToUser`: an empty word list is the
`no words to send` error; otherwise the formatted message is pushed and
the push outcome decides success. (Message formatting is irrelevant to
the claims and omitted.) -/
def sendWordsToUser (pushOk : Bool) (words : List Word) : Except Unit Unit :=
  if words.length = 0 then .error ()
  else if pushOk then .ok () else .error ()

/-- Fold `Add` over a word list (the loop inside
`AddWordsToBloomFilter`). -/
def addAllWords (filter : BloomFilter) (words : List Word) : BloomFilter :=
  words.foldl (fun f w => f.Add w.Word) filter

/-- `(*BloomFilterRepository).AddWordsToBloomFilter`: load the filter,
`Add` every word, save. The result pairs the error status with the store
state after the call (`SaveBloomFilter` rewrites the item on success and
leaves the store unchanged on failure). -/
def AddWordsToBloomFilter (read : StoreRead) (saveOk : Bool) (userID : String)
    (words : List Word) : Except Unit Unit × StoreRead :=
  match GetBloomFilter read userID with
  | .error e => (.error e, read)
  | .ok filter =>
    let updated := addAllWords filter words
    if saveOk then (.ok (), .item updated) else (.error (), read)

/-- What one `HandleWordPush` invocation is observed to do: the
`status` field of the returned map and the bloom-filter store state
afterwards. -/
structure HandlerResult where
  status : String
  store : StoreRead
deriving Repr, DecidableEq

/-- `(*Handler).HandleWordPush`: empty user id, config errors, missing
config, generation failure and push failure each return an `"error"`
response at once (leaving the filter store untouched); only after a
successful push are the words added to the bloom filter, and a failure
there is logged as non-critical, still returning `"success"`. -/
def HandleWordPush (env : PushEnv) (userID : String) : HandlerResult :=
  if userID = "" then ⟨"error", env.read⟩
  else
    match env.userConfig with
    | .error _ => ⟨"error", env.read⟩
    | .ok none => ⟨"error", env.read⟩
    | .ok (some cfg) =>
      let supply := generateWordsWithBloomFilter env.read env.gen
        cfg.DailyWords userID
      match supply.result with
      | .error _ => ⟨"error", env.read⟩
      | .ok words =>
        match sendWordsToUser env.pushOk words with
        | .error _ => ⟨"error", env.read⟩
        | .ok _ =>
          let add := AddWordsToBloomFilter env.read env.saveOk userID words
          ⟨"success", add.2⟩

/-! ### Derived views and concrete scenario data used by the statements -/

/-- The linear bit positions probed for a word: both `Add` and `Contains`
compute `index := hash % uint64(bf.Size)` for each hash of `getHashes`. -/
def probePositions (bf : BloomFilter) (word : String) : List Nat :=
  (bf.getHashes word).map (fun hash => hash % bf.Size)

/-- The probe positions as the specification words them: the SHA-256
digest of the exact word text, two 64-bit integers `h1`, `h2` from
disjoint 8-byte halves of the digest prefix, and
`position_i = (h1 + i * h2) mod m` for `i < k` — written without the
`uint64` wrap-around of the implementation, as the comparand for the
refinement claim about hash derivation. -/
def specProbePositions (word : String) (m k : Nat) : List Nat :=
  let digest := sha256 (strBytes word)
  let h1 := beNat (digest.take 8)
  let h2 := beNat ((digest.drop 8).take 8)
  (List.range k).map (fun i => (h1 + i * h2) % m)

/-- Number of set bits among the 8 bits of one byte. -/
def byteOnes (b : Nat) : Nat := (List.range 8).countP (fun i => b.testBit i)

/-- Total number of set bits in a bit array. -/
def setBitsCount (ba : List Nat) : Nat := (ba.map byteOnes).sum

/-- One operation of the filter API. -/
inductive FilterOp where
  | add (w : String)
  | containsQuery (w : String)
  | filterNovel (ws : List Word)

/-- The filter state after one operation: `Add` mutates the bit array;
`Contains` and `FilterWords` only read it (their method bodies contain no
assignment), so they leave the state unchanged. -/
def applyOp (bf : BloomFilter) : FilterOp → BloomFilter
  | .add w => bf.Add w
  | .containsQuery w => (bf.ContainsS w).2
  | .filterNovel ws => (filterWordsGo bf ws).2

/-- The filter state after a sequence of operations. -/
def applyOps (bf : BloomFilter) (ops : List FilterOp) : BloomFilter :=
  ops.foldl applyOp bf

/-- The generator of the spec's two-call scenario: `["a","b","c"]` on the
first call, `["a","d","e"]` on the second. -/
def genTwoCall : Nat → Except Unit (List Word)
  | 1 => .ok [mkWord "a", mkWord "b", mkWord "c"]
  | 2 => .ok [mkWord "a", mkWord "d", mkWord "e"]
  | _ => .ok []

/-- The trace of `n` consecutive generator calls starting at a given
attempt number and batch size, escalating to `wordCount * 5` afterwards.
-/
def traceFrom (wordCount : Int) : Nat → Int → Nat → List (Nat × Int)
  | _, _, 0 => []
  | attempt, generateCount, n + 1 =>
    (attempt, generateCount) :: traceFrom wordCount (attempt + 1) (wordCount * 5) n

/-- A persisted filter whose byte length 5 mismatches
`ceil(8192/8) = 1024`. -/
def corruptFilter : BloomFilter :=
  { UserID := "u"
    BitArray := List.replicate 5 0
    Size := 8192
    HashCount := 5
    UpdatedAt := "" }

/-- A user configuration asking for one daily word. -/
def oneWordConfig : UserConfig :=
  { UserID := "u", Course := "toeic", Level := 700, DailyWords := 1
    PushTime := "08:00", Timezone := "Asia/Taipei", UpdatedAt := "" }

/-- Handler environment where everything succeeds except the LINE push. -/
def pushFailEnv : PushEnv :=
  { userConfig := .ok (some oneWordConfig)
    read := .absent
    gen := fun _ => .ok [mkWord "apple"]
    pushOk := false
    saveOk := true }

/-- Handler environment with no user configuration and a failing push. -/
def noConfigEnv : PushEnv :=
  { userConfig := .ok none
    read := .absent
    gen := fun _ => .ok []
    pushOk := false
    saveOk := true }

/-! ## Lemmas about the bit array -/

theorem getD_set_self {ba : List Nat} {j v : Nat} (h : j < ba.length) :
    (ba.set j v).getD j 0 = v := by
  rw [List.getD_eq_getElem?_getD, List.getElem?_set_self h]
  rfl

theorem getD_set_ne {ba : List Nat} {j i v : Nat} (h : j ≠ i) :
    (ba.set j v).getD i 0 = ba.getD i 0 := by
  rw [List.getD_eq_getElem?_getD, List.getElem?_set_ne h,
    ← List.getD_eq_getElem?_getD]

theorem bitTest_eq_testBit (ba : List Nat) (index : Nat) :
    bitTest ba index = (ba.getD (index / 8) 0).testBit (index % 8) := by
  unfold bitTest
  rw [Nat.one_shiftLeft, Nat.and_two_pow]
  cases h : (ba.getD (index / 8) 0).testBit (index % 8) <;>
    simp [h, Nat.pow_eq_zero]

theorem length_setBitStep (ba : List Nat) (idx : Nat) :
    (setBitStep ba idx).length = ba.length := by
  simp only [setBitStep]
  split <;> simp

theorem bitTest_setBitStep_self {ba : List Nat} {idx : Nat}
    (h : idx / 8 < ba.length) :
    bitTest (setBitStep ba idx) idx = true := by
  simp only [setBitStep]
  rw [if_pos h, bitTest_eq_testBit, getD_set_self h, Nat.one_shiftLeft,
    Nat.testBit_lor, Nat.testBit_two_pow_self, Bool.or_true]

theorem bitTest_setBitStep_of_bitTest {ba : List Nat} {idx : Nat}
    (idx' : Nat) (h : bitTest ba idx = true) :
    bitTest (setBitStep ba idx') idx = true := by
  simp only [setBitStep]
  split
  case isFalse => exact h
  case isTrue hlt =>
    rw [bitTest_eq_testBit] at h ⊢
    by_cases hj : idx' / 8 = idx / 8
    · rw [← hj, getD_set_self hlt, Nat.testBit_lor, hj, h, Bool.true_or]
    · rw [getD_set_ne hj]
      exact h

theorem bitTest_foldl_of_bitTest {size : Nat} (hs : List Nat)
    {ba : List Nat} {idx : Nat} (h : bitTest ba idx = true) :
    bitTest (hs.foldl (fun ba hash => setBitStep ba (hash % size)) ba) idx
      = true := by
  induction hs generalizing ba with
  | nil => exact h
  | cons hd tl ih =>
    rw [List.foldl_cons]
    exact ih (bitTest_setBitStep_of_bitTest _ h)

theorem length_foldl_setBit (size : Nat) (hs : List Nat) (ba : List Nat) :
    (hs.foldl (fun ba hash => setBitStep ba (hash % size)) ba).length
      = ba.length := by
  induction hs generalizing ba with
  | nil => rfl
  | cons hd tl ih => rw [List.foldl_cons, ih, length_setBitStep]

theorem bitTest_foldl_of_mem {size : Nat} {hs : List Nat} {ba : List Nat}
    {h : Nat} (hmem : h ∈ hs) (hlen : h % size / 8 < ba.length) :
    bitTest (hs.foldl (fun ba hash => setBitStep ba (hash % size)) ba)
      (h % size) = true := by
  induction hs generalizing ba with
  | nil => cases hmem
  | cons hd tl ih =>
    rw [List.foldl_cons]
    rcases List.mem_cons.mp hmem with heq | htl
    · subst heq
      exact bitTest_foldl_of_bitTest tl (bitTest_setBitStep_self hlen)
    · exact ih htl (by rw [length_setBitStep]; exact hlen)

/-! ## Lemmas about `Add`, `Contains` and `FilterWords` -/

theorem Add_Size (bf : BloomFilter) (w : String) : (bf.Add w).Size = bf.Size :=
  rfl

theorem Add_HashCount (bf : BloomFilter) (w : String) :
    (bf.Add w).HashCount = bf.HashCount := rfl

theorem Add_BitArray (bf : BloomFilter) (w : String) :
    (bf.Add w).BitArray = (bf.getHashes w).foldl
      (fun ba hash => setBitStep ba (hash % bf.Size)) bf.BitArray := rfl

theorem Add_length (bf : BloomFilter) (w : String) :
    (bf.Add w).BitArray.length = bf.BitArray.length := by
  rw [Add_BitArray, length_foldl_setBit]

theorem getHashes_congr {bf bg : BloomFilter} (w : String)
    (h : bf.HashCount = bg.HashCount) : bf.getHashes w = bg.getHashes w := by
  unfold BloomFilter.getHashes
  rw [h]

theorem contains_iff_probes (bf : BloomFilter) (w : String) :
    bf.Contains w = true ↔
      ∀ h ∈ bf.getHashes w, bitTest bf.BitArray (h % bf.Size) = true := by
  unfold BloomFilter.Contains
  rw [List.all_eq_true]

theorem probes_set_after_Add (bf : BloomFilter) (w : String)
    (hlen : bf.BitArray.length = (bf.Size + 7) / 8) (hpos : 0 < bf.Size) :
    ∀ h ∈ bf.getHashes w, bitTest (bf.Add w).BitArray (h % bf.Size) = true := by
  intro h hmem
  rw [Add_BitArray]
  apply bitTest_foldl_of_mem hmem
  have hm : h % bf.Size < bf.Size := Nat.mod_lt _ hpos
  omega

theorem probes_preserved_by_Add (bf : BloomFilter) (x : String) {idx : Nat}
    (h : bitTest bf.BitArray idx = true) :
    bitTest (bf.Add x).BitArray idx = true := by
  rw [Add_BitArray]
  exact bitTest_foldl_of_bitTest _ h

/-- Claim C2, core form: starting from a well-formed filter, after
`Add w` every probe bit of `w` stays set across any further `Add`
sequence, and `Contains w` is true on the resulting filter. -/
theorem contains_after_adds (bf : BloomFilter) (w : String)
    (others : List String)
    (hlen : bf.BitArray.length = (bf.Size + 7) / 8) (hpos : 0 < bf.Size) :
    (others.foldl (fun f x => f.Add x) (bf.Add w)).Contains w = true := by
  suffices hsuf : ∀ (os : List String) (g : BloomFilter),
      g.Size = bf.Size → g.HashCount = bf.HashCount →
      (∀ h ∈ bf.getHashes w, bitTest g.BitArray (h % bf.Size) = true) →
      (os.foldl (fun f x => f.Add x) g).Contains w = true by
    exact hsuf others (bf.Add w) rfl rfl (probes_set_after_Add bf w hlen hpos)
  intro os
  induction os with
  | nil =>
    intro g hsize hhc hbits
    rw [List.foldl_nil, contains_iff_probes, getHashes_congr w hhc, hsize]
    exact hbits
  | cons o os ih =>
    intro g hsize hhc hbits
    rw [List.foldl_cons]
    exact ih (g.Add o) hsize hhc
      (fun h hmem => probes_preserved_by_Add g o (hbits h hmem))

/-- C2: for every word `w` and every filter whose bit array length is
`ceil(Size/8)` with `Size > 0`, `Contains w` is true right after `Add w`
and remains true after any further sequence of `Add` calls. -/
theorem claim_C2_no_false_negatives (bf : BloomFilter) (w : String)
    (others : List String)
    (hlen : bf.BitArray.length = (bf.Size + 7) / 8) (hpos : 0 < bf.Size) :
    (bf.Add w).Contains w = true ∧
    (others.foldl (fun f x => f.Add x) (bf.Add w)).Contains w = true :=
  ⟨contains_after_adds bf w [] hlen hpos,
   contains_after_adds bf w others hlen hpos⟩

theorem claim_C2_witness :
    (NewBloomFilter "u" 10000).BitArray.length
        = ((NewBloomFilter "u" 10000).Size + 7) / 8 ∧
    ((NewBloomFilter "u" 10000).Add "apple").Contains "apple" = true ∧
    ((["banana", "cherry"].foldl (fun f x => f.Add x)
        ((NewBloomFilter "u" 10000).Add "apple")).Contains "apple" = true) :=
  ⟨by decide,
   (claim_C2_no_false_negatives (NewBloomFilter "u" 10000) "apple"
      ["banana", "cherry"] (by decide) (by decide)).1,
   (claim_C2_no_false_negatives (NewBloomFilter "u" 10000) "apple"
      ["banana", "cherry"] (by decide) (by decide)).2⟩

/-! ## Monotonicity of the bit count (C7) -/

theorem filterWordsGo_snd (filter : BloomFilter) (words : List Word) :
    (filterWordsGo filter words).2 = filter := by
  induction words with
  | nil => rfl
  | cons w ws ih =>
    simp only [filterWordsGo, BloomFilter.ContainsS]
    split <;> exact ih

theorem filterWordsGo_fst (filter : BloomFilter) (words : List Word) :
    (filterWordsGo filter words).1
      = words.filter (fun w => !(filter.Contains w.Word)) := by
  induction words with
  | nil => rfl
  | cons w ws ih =>
    simp only [filterWordsGo, BloomFilter.ContainsS, List.filter_cons]
    cases h : filter.Contains w.Word <;> simp [h, ih]

theorem byteOnes_le_or (a x : Nat) : byteOnes a ≤ byteOnes (a ||| x) := by
  unfold byteOnes
  apply List.countP_mono_left
  intro i _ hp
  rw [Nat.testBit_lor]
  simp only [decide_eq_true_eq] at hp ⊢
  rw [hp, Bool.true_or]

theorem setBitsCount_le_set_or (ba : List Nat) (j x : Nat) :
    setBitsCount ba ≤ setBitsCount (ba.set j (ba.getD j 0 ||| x)) := by
  induction ba generalizing j with
  | nil => simp [setBitsCount]
  | cons a t ih =>
    cases j with
    | zero =>
      simp only [setBitsCount, List.getD_cons_zero, List.set_cons_zero,
        List.map_cons, List.sum_cons]
      exact Nat.add_le_add_right (byteOnes_le_or a x) _
    | succ n =>
      simp only [setBitsCount, List.getD_cons_succ, List.set_cons_succ,
        List.map_cons, List.sum_cons]
      exact Nat.add_le_add_left (ih n) _

theorem setBitsCount_le_setBitStep (ba : List Nat) (idx : Nat) :
    setBitsCount ba ≤ setBitsCount (setBitStep ba idx) := by
  simp only [setBitStep]
  split
  · exact setBitsCount_le_set_or ba _ _
  · exact Nat.le_refl _

theorem setBitsCount_le_foldl (size : Nat) (hs : List Nat) (ba : List Nat) :
    setBitsCount ba ≤
      setBitsCount (hs.foldl (fun ba hash => setBitStep ba (hash % size)) ba) := by
  induction hs generalizing ba with
  | nil => exact Nat.le_refl _
  | cons hd tl ih =>
    rw [List.foldl_cons]
    exact Nat.le_trans (setBitsCount_le_setBitStep ba (hd % size)) (ih _)

theorem setBitsCount_le_Add (bf : BloomFilter) (w : String) :
    setBitsCount bf.BitArray ≤ setBitsCount (bf.Add w).BitArray := by
  rw [Add_BitArray]
  exact setBitsCount_le_foldl _ _ _

theorem setBitsCount_le_applyOp (bf : BloomFilter) (op : FilterOp) :
    setBitsCount bf.BitArray ≤ setBitsCount (applyOp bf op).BitArray := by
  cases op with
  | add w => exact setBitsCount_le_Add bf w
  | containsQuery w => exact Nat.le_refl _
  | filterNovel ws =>
    simp only [applyOp]
    rw [filterWordsGo_snd]

/-- C7: across any sequence of `Add`, `Contains` and `FilterWords`
operations the number of set bits in the filter's bit array never
decreases (no operation ever clears a bit). -/
theorem claim_C7_monotonicity (bf : BloomFilter) (ops : List FilterOp) :
    setBitsCount bf.BitArray ≤ setBitsCount (applyOps bf ops).BitArray := by
  induction ops generalizing bf with
  | nil => exact Nat.le_refl _
  | cons op ops ih =>
    unfold applyOps
    rw [List.foldl_cons]
    exact Nat.le_trans (setBitsCount_le_applyOp bf op) (ih (applyOp bf op))

/-! ## `FilterWords` as a stable filter (C6) -/

/-- C6: over a well-formed filter, `FilterWords` returns exactly the
input words whose key `Contains` rejects, as an order-preserving
subsequence of the input, and leaves the filter's bit array unchanged
(the threaded filter state comes back untouched). -/
theorem claim_C6_stable_filter (filter : BloomFilter) (words : List Word)
    (uid : String) (hwf : filter.WF) :
    FilterWords (.item filter) uid words
        = .ok (words.filter (fun w => !(filter.Contains w.Word))) ∧
    (filterWordsGo filter words).1.Sublist words ∧
    (filterWordsGo filter words).2.BitArray = filter.BitArray := by
  refine ⟨?_, ?_, ?_⟩
  · simp only [FilterWords, GetBloomFilter]
    rw [filterWordsGo_fst]
  · rw [filterWordsGo_fst]
    exact List.filter_sublist words
  · rw [filterWordsGo_snd]

theorem claim_C6_witness :
    FilterWords (.item (NewBloomFilter "u" 0)) "u" [mkWord "x"]
        = .ok (([mkWord "x"].filter
            (fun w => !((NewBloomFilter "u" 0).Contains w.Word)))) ∧
    (filterWordsGo (NewBloomFilter "u" 0) [mkWord "x"]).2.BitArray
        = (NewBloomFilter "u" 0).BitArray :=
  ⟨(claim_C6_stable_filter (NewBloomFilter "u" 0) [mkWord "x"] "u"
      (by decide)).1,
   (claim_C6_stable_filter (NewBloomFilter "u" 0) [mkWord "x"] "u"
      (by decide)).2.2⟩

/-! ## Hash derivation (C9) -/

/-- C9: for every word and every filter whose `Size` divides `2^64`
(as the hardcoded `8192` does), the probe bit positions used by `Add`
and `Contains` are exactly the spec's
`(h1 + i*h2) mod m` for `i < k`, with `h1`, `h2` the two 64-bit
big-endian integers from the disjoint 8-byte halves of the SHA-256
digest prefix; moreover `Contains` tests and `Add` sets exactly those
positions. -/
theorem claim_C9_hash_derivation (bf : BloomFilter) (word : String)
    (hdvd : bf.Size ∣ 2 ^ 64) :
    probePositions bf word = specProbePositions word bf.Size bf.HashCount ∧
    bf.Contains word = (probePositions bf word).all (bitTest bf.BitArray) ∧
    (bf.Add word).BitArray = (probePositions bf word).foldl setBitStep bf.BitArray := by
  refine ⟨?_, ?_, ?_⟩
  · unfold probePositions specProbePositions BloomFilter.getHashes
    simp only [List.map_map, Function.comp]
    exact List.map_congr_left (fun i _ => Nat.mod_mod_of_dvd _ hdvd)
  · unfold BloomFilter.Contains probePositions
    rw [List.all_map]
    rfl
  · rw [Add_BitArray]
    unfold probePositions
    rw [List.foldl_map]

theorem claim_C9_witness :
    probePositions (NewBloomFilter "u" 0) "apple"
      = specProbePositions "apple" 8192 5 :=
  (claim_C9_hash_derivation (NewBloomFilter "u" 0) "apple"
    ⟨2251799813685248, by norm_num [NewBloomFilter]⟩).1

/-! ## `NewBloomFilter` ignores its argument (C10) -/

/-- C10: `NewBloomFilter` ignores `expectedElements` entirely — for every
user id and every argument (including the `10000` passed on lazy
creation) the filter has `Size = 8192`, `HashCount = 5` and a zeroed
1024-byte bit array, so `len(BitArray) = ceil(Size/8)` holds at
creation. -/
theorem claim_C10_fixed_parameters (uid : String) (n : Int) :
    NewBloomFilter uid n = NewBloomFilter uid 10000 ∧
    (NewBloomFilter uid n).Size = 8192 ∧
    (NewBloomFilter uid n).HashCount = 5 ∧
    (NewBloomFilter uid n).BitArray = List.replicate 1024 0 ∧
    (NewBloomFilter uid n).BitArray.length
      = ((NewBloomFilter uid n).Size + 7) / 8 := by
  refine ⟨rfl, rfl, rfl, ?_, ?_⟩
  · show List.replicate ((8192 + 7) / 8) 0 = List.replicate 1024 0
    norm_num
  · show (List.replicate ((8192 + 7) / 8) (0 : Nat)).length = (8192 + 7) / 8
    rw [List.length_replicate]

/-! ## The supply loop: call trace (C5) -/

theorem traceFrom_length (wc : Int) :
    ∀ (n : Nat) (attempt : Nat) (gc : Int),
      (traceFrom wc attempt gc n).length = n := by
  intro n
  induction n with
  | zero => intro attempt gc; rfl
  | succ n ih =>
    intro attempt gc
    simp only [traceFrom, List.length_cons, ih]

theorem traceFrom_eq_map (wc : Int) :
    ∀ (n : Nat) (attempt : Nat) (gc : Int),
      traceFrom wc attempt gc n
        = (List.range n).map
            (fun i => (attempt + i, if i = 0 then gc else wc * 5)) := by
  intro n
  induction n with
  | zero => intro attempt gc; rfl
  | succ n ih =>
    intro attempt gc
    rw [List.range_succ_eq_map]
    simp only [traceFrom, List.map_cons, List.map_map]
    refine List.cons_eq_cons.mpr ⟨by simp, ?_⟩
    rw [ih (attempt + 1) (wc * 5)]
    apply List.map_congr_left
    intro i _
    simp only [Function.comp_apply, Nat.succ_eq_add_one, if_neg (Nat.succ_ne_zero i)]
    refine Prod.ext ?_ ?_ <;> simp
    omega

theorem supplyGo_calls_traceFrom (read : StoreRead)
    (gen : Nat → Except Unit (List Word)) (wc : Int) (uid : String) :
    ∀ (left attempt : Nat) (gc : Int) (fw : List Word),
      ∃ n, n ≤ left ∧
        (supplyGo read gen wc uid attempt gc fw left).calls
          = traceFrom wc attempt gc n := by
  intro left
  induction left with
  | zero => intro attempt gc fw; exact ⟨0, Nat.le_refl _, rfl⟩
  | succ left ih =>
    intro attempt gc fw
    simp only [supplyGo]
    split
    case isTrue =>
      cases gen attempt with
      | error e => exact ⟨1, by omega, rfl⟩
      | ok words =>
        dsimp only
        cases FilterWords read uid words with
        | error e => exact ⟨1, by omega, rfl⟩
        | ok newWords =>
          dsimp only
          obtain ⟨n, hn, hc⟩ := ih (attempt + 1) (wc * 5) (appendCapped wc fw newWords)
          exact ⟨n + 1, by omega, by simp only [traceFrom, hc]⟩
    case isFalse => exact ⟨0, by omega, rfl⟩

/-- C5: the supply loop always terminates (the embedding is a total
function of the structural attempt budget) and makes at most 5 generator
calls, whatever the generator and the store return; its call trace lists
consecutive attempts starting at 1, the first call requesting
`desiredCount * 3` words and every later call `desiredCount * 5`. -/
theorem claim_C5_bounded_calls (read : StoreRead)
    (gen : Nat → Except Unit (List Word)) (wordCount : Int) (uid : String) :
    (generateWordsWithBloomFilter read gen wordCount uid).calls.length ≤ 5 ∧
    (generateWordsWithBloomFilter read gen wordCount uid).calls
      = (List.range
          (generateWordsWithBloomFilter read gen wordCount uid).calls.length).map
          (fun i => (i + 1, if i = 0 then wordCount * 3 else wordCount * 5)) := by
  obtain ⟨n, hn, hc⟩ := supplyGo_calls_traceFrom read gen wordCount uid 5 1
    (wordCount * 3) []
  have hlen : (generateWordsWithBloomFilter read gen wordCount uid).calls.length
      = n := by
    simp only [generateWordsWithBloomFilter, hc, traceFrom_length]
  constructor
  · rw [hlen]
    exact hn
  · rw [hlen, generateWordsWithBloomFilter, hc, traceFrom_eq_map]
    apply List.map_congr_left
    intro i _
    refine Prod.ext ?_ ?_ <;> simp
    omega

/-! ## The supply loop: failure only on empty accumulation (C4) -/

theorem FilterWords_ok_of_read {read : StoreRead} (h1 : read ≠ .unavailable)
    (h2 : read ≠ .unreadable) (uid : String) (ws : List Word) :
    ∃ out, FilterWords read uid ws = .ok out := by
  cases read with
  | unavailable => exact absurd rfl h1
  | unreadable => exact absurd rfl h2
  | absent => exact ⟨_, rfl⟩
  | item f => exact ⟨_, rfl⟩

theorem finishSupply_error_iff (wc : Int) (fw : List Word) :
    (finishSupply wc fw = .error () ↔ fw = []) := by
  cases fw with
  | nil => simp [finishSupply]
  | cons w ws =>
    simp only [finishSupply, List.length_cons]
    split
    · omega
    · split <;> simp

theorem finishSupply_short (wc : Int) (fw : List Word) (hne : fw ≠ [])
    (hlt : (fw.length : Int) < wc) : finishSupply wc fw = .ok fw := by
  unfold finishSupply
  rw [if_neg (by simpa using fun h => hne (List.length_eq_zero.mp h)),
    if_neg (by omega)]

theorem supplyGo_result_eq_finish (read : StoreRead)
    (gen : Nat → Except Unit (List Word)) (wc : Int) (uid : String)
    (hgen : ∀ n, ∃ ws, gen n = .ok ws)
    (hok : ∀ ws, ∃ out, FilterWords read uid ws = .ok out) :
    ∀ (left attempt : Nat) (gc : Int) (fw : List Word),
      (supplyGo read gen wc uid attempt gc fw left).result
        = finishSupply wc (supplyGo read gen wc uid attempt gc fw left).accumulated := by
  intro left
  induction left with
  | zero => intro attempt gc fw; rfl
  | succ left ih =>
    intro attempt gc fw
    simp only [supplyGo]
    split
    case isTrue =>
      obtain ⟨ws, hws⟩ := hgen attempt
      obtain ⟨out, hout⟩ := hok ws
      rw [hws]
      dsimp only
      rw [hout]
      dsimp only
      exact ih (attempt + 1) (wc * 5) (appendCapped wc fw out)
    case isFalse => rfl

/-- C4: with the store readable and the generator never failing, the
supply loop returns an error exactly when the accumulated word list is
empty at exit; whenever at least one novel word was accumulated but fewer
than `desiredCount`, it returns that short list as a success. -/
theorem claim_C4_error_only_when_empty (read : StoreRead)
    (g : Nat → List Word) (wordCount : Int) (uid : String)
    (h1 : read ≠ .unavailable) (h2 : read ≠ .unreadable) :
    ((generateWordsWithBloomFilter read (fun n => .ok (g n)) wordCount uid).result
        = .error () ↔
      (generateWordsWithBloomFilter read (fun n => .ok (g n)) wordCount
        uid).accumulated = []) ∧
    ((generateWordsWithBloomFilter read (fun n => .ok (g n)) wordCount
        uid).accumulated ≠ [] →
      ((generateWordsWithBloomFilter read (fun n => .ok (g n)) wordCount
          uid).accumulated.length : Int) < wordCount →
      (generateWordsWithBloomFilter read (fun n => .ok (g n)) wordCount uid).result
        = .ok (generateWordsWithBloomFilter read (fun n => .ok (g n)) wordCount
            uid).accumulated) := by
  have hres := supplyGo_result_eq_finish read (fun n => .ok (g n)) wordCount uid
    (fun n => ⟨g n, rfl⟩) (FilterWords_ok_of_read h1 h2 uid) 5 1 (wordCount * 3) []
  simp only [generateWordsWithBloomFilter]
  constructor
  · rw [hres]
    exact finishSupply_error_iff _ _
  · intro hne hlt
    rw [hres]
    rw [finishSupply_short _ _ hne hlt]

theorem claim_C4_witness :
    (generateWordsWithBloomFilter .absent
      (fun n => .ok (([] : List Word))) 5 "u").result = .error () := by
  have h := claim_C4_error_only_when_empty .absent (fun _ => []) 5 "u"
    (by decide) (by decide)
  exact h.1.mpr (by decide)

/-! ## The two-call scenario (C1) -/

/-- C1 counterexample: in the spec's two-call scenario (fresh filter,
first batch `["a","b","c"]`, second batch `["a","d","e"]`,
`desiredCount = 5`) the loop never writes accumulated words into the
stored filter, so `FilterWords` on the second batch returns
`["a","d","e"]` (not `["d","e"]`), the final result is
`["a","b","c","a","d"]` (not `["a","b","c","d","e"]`), and the word "a"
appears twice. -/
theorem claim_C1_counterexample :
    FilterWords .absent "u" [mkWord "a", mkWord "d", mkWord "e"]
        = .ok [mkWord "a", mkWord "d", mkWord "e"] ∧
    (generateWordsWithBloomFilter .absent genTwoCall 5 "u").result
        = .ok [mkWord "a", mkWord "b", mkWord "c", mkWord "a", mkWord "d"] ∧
    (generateWordsWithBloomFilter .absent genTwoCall 5 "u").result
        ≠ .ok [mkWord "a", mkWord "b", mkWord "c", mkWord "d", mkWord "e"] ∧
    (generateWordsWithBloomFilter .absent genTwoCall 5 "u").accumulated.count
        (mkWord "a") = 2 := by
  have hres : (generateWordsWithBloomFilter .absent genTwoCall 5 "u").result
      = .ok [mkWord "a", mkWord "b", mkWord "c", mkWord "a", mkWord "d"] := by
    decide
  refine ⟨by decide, hres, ?_, by decide⟩
  rw [hres]
  decide

/-- C1 amended: in the two-call scenario the Membership Filter seen by
the second attempt is still the stored (empty) filter — accumulated words
are only inserted after delivery, outside the loop — so `FilterNovel`
over the second batch yields `["a","d","e"]` and the final accumulated
result is `["a","b","c","a","d"]`, in which the word "a", already taken
in the first attempt, appears a second time. -/
theorem claim_C1_amended_scenario :
    FilterWords .absent "u" [mkWord "a", mkWord "d", mkWord "e"]
        = .ok [mkWord "a", mkWord "d", mkWord "e"] ∧
    (generateWordsWithBloomFilter .absent genTwoCall 5 "u").result
        = .ok [mkWord "a", mkWord "b", mkWord "c", mkWord "a", mkWord "d"] ∧
    (generateWordsWithBloomFilter .absent genTwoCall 5 "u").accumulated.count
        (mkWord "a") = 2 :=
  ⟨by decide, by decide, by decide⟩

/-! ## Push failure and filter bookkeeping (C3) -/

theorem sendWordsToUser_false (ws : List Word) :
    sendWordsToUser false ws = .error () := by
  unfold sendWordsToUser
  split <;> simp

/-- C3 counterexample: with the user configured, generation succeeding
(`["apple"]`) and only the LINE push failing, `HandleWordPush` returns an
error and leaves the filter store untouched (`.absent`): the generated
word is NOT recorded as delivered, contrary to the claim. -/
theorem claim_C3_counterexample :
    HandleWordPush pushFailEnv "u" = ⟨"error", .absent⟩ ∧
    (HandleWordPush pushFailEnv "u").store = pushFailEnv.read ∧
    (HandleWordPush pushFailEnv "u").store
      ≠ .item (addAllWords (NewBloomFilter "u" 10000) [mkWord "apple"]) :=
  ⟨by decide, by decide, by decide⟩

/-- C3 amended: a push failure is fatal to filter bookkeeping — the
handler returns an `"error"` response and the store is untouched, so the
generated words are NOT recorded as delivered; what is non-fatal is the
converse case: after a successful push, a failure while adding the words
to the filter still yields a `"success"` response. -/
theorem claim_C3_amended_push_failure_fatal (env : PushEnv) (uid : String)
    (cfg : UserConfig) (ws : List Word) :
    (env.pushOk = false → HandleWordPush env uid = ⟨"error", env.read⟩) ∧
    (uid ≠ "" → env.userConfig = .ok (some cfg) →
      (generateWordsWithBloomFilter env.read env.gen cfg.DailyWords uid).result
        = .ok ws →
      ws ≠ [] → env.pushOk = true →
      (HandleWordPush env uid).status = "success") := by
  constructor
  · intro hp
    unfold HandleWordPush
    rw [hp]
    split
    · rfl
    · cases env.userConfig with
      | error e => rfl
      | ok oc =>
        cases oc with
        | none => rfl
        | some cfg' =>
          dsimp only
          cases (generateWordsWithBloomFilter env.read env.gen cfg'.DailyWords
              uid).result with
          | error e => rfl
          | ok words =>
            dsimp only
            rw [sendWordsToUser_false]
  · intro hu hcfg hsup hws hp
    unfold HandleWordPush
    rw [if_neg hu, hcfg]
    dsimp only
    rw [hsup]
    dsimp only
    have hsend : sendWordsToUser env.pushOk ws = .ok () := by
      unfold sendWordsToUser
      rw [if_neg (by simpa using fun h => hws (List.length_eq_zero.mp h)), hp]
      simp
    rw [hsend]

theorem claim_C3_amended_witness :
    HandleWordPush noConfigEnv "u" = ⟨"error", noConfigEnv.read⟩ :=
  (claim_C3_amended_push_failure_fatal noConfigEnv "u" oneWordConfig []).1 rfl

/-! ## Loading a mismatched filter (C8) -/

/-- C8 counterexample: a persisted filter with `Size = 8192` but a 5-byte
bit array (mismatching `ceil(8192/8) = 1024`) is returned by
`GetBloomFilter` as a usable filter, not as an error: the load performs
no byte-length validation. -/
theorem claim_C8_counterexample :
    GetBloomFilter (.item corruptFilter) "u" = .ok corruptFilter ∧
    corruptFilter.BitArray.length ≠ (corruptFilter.Size + 7) / 8 :=
  ⟨rfl, by decide⟩

/-- C8 amended: `GetBloomFilter` never validates the stored byte length —
every filter the item unmarshals to is returned as-is — and the load
fails only when the store read itself fails or the item cannot be
unmarshalled. -/
theorem claim_C8_amended_no_validation (f : BloomFilter) (read : StoreRead)
    (uid : String) :
    GetBloomFilter (.item f) uid = .ok f ∧
    ((∃ e, GetBloomFilter read uid = .error e) ↔
      read = .unavailable ∨ read = .unreadable) := by
  refine ⟨rfl, ?_⟩
  cases read <;> simp [GetBloomFilter]

end LangAssist
